import Mathlib

/-!
Shallow embedding of `src/build.ts` (the potato-store harvester) and proofs
about its registry-maintenance, tag-index and artifact-resolution logic.

Conventions of the embedding:
* JavaScript strings are `String`; a missing string field is the empty string
  (both are falsy in the source, which only ever tests truthiness).
* A possibly-missing array field is `Option (List String)`: `none` models an
  absent field (falsy), `some l` models a present array (truthy in JS even
  when `l = []`).
* The mutable `harvestIndex` object and the global `tagIndex` map are threaded
  explicitly as values; `Map`/`Set` iteration order is insertion order, so the
  tag map is an insertion-ordered association list with insertion-ordered,
  duplicate-free member lists.
* Filesystem and subprocess effects (`existsSync`, `git`, the external build,
  `copyFileSync`) are inputs of each pipeline step: an `Event` carries the
  parsed manifest together with the build's exit status and the set of paths
  that exist on disk when the zip candidates are probed.
-/

/-- Parsed `potato.yaml` manifest record (`parseYamlFile` output) as consumed
by the pipeline. `output_zip_file` models `developer.output_zip_file`. -/
structure PotatoYaml where
  slug : String := ""
  version : String := ""
  name : String := ""
  info : String := ""
  tags : Option (List String) := none
  author_name : String := ""
  author_email : String := ""
  author_site : String := ""
  license : String := ""
  output_zip_file : String := ""
  deriving Repr, DecidableEq

/-- Package entry stored in `harvestIndex.potatoes`. -/
structure Potato where
  name : String := ""
  info : String := ""
  slug : String := ""
  tags : Option (List String) := none
  author_name : String := ""
  author_email : String := ""
  author_site : String := ""
  license : String := ""
  current_version : String := ""
  versions : Option (List String) := none
  deriving Repr, DecidableEq

/-- The registry document (`harvestIndex`). -/
structure HarvestIndex where
  name : String := ""
  info : String := ""
  type : String := ""
  zip_template : String := ""
  indexed_tags : List String := []
  indexed_tag_template : String := ""
  potatoes : List Potato := []
  deriving Repr, DecidableEq

/-- Fresh registry document used when no `harvest-index.json` exists. -/
def defaultHarvestIndex : HarvestIndex :=
  { name := "Official Potato Field"
    info := "Official Potato Field for PotatoVerse"
    type := "harvester-v1"
    zip_template := "/harvest/{slug}/{slug}.{version}.spk.zip"
    indexed_tags := ["official"]
    indexed_tag_template := "/tags/{tag}.json"
    potatoes := [] }

/-- Source `findPotatoEntry`: first entry whose slug matches. -/
def findPotatoEntry (slug : String) (h : HarvestIndex) : Option Potato :=
  h.potatoes.find? (fun p => p.slug == slug)

/-- Source `versionExists(potato, version)`: `potato && potato.versions &&
potato.versions.includes(version)`. -/
def versionExists (potato : Option Potato) (version : String) : Bool :=
  match potato with
  | none => false
  | some p =>
    match p.versions with
    | none => false
    | some vs => vs.contains version

/-- Entry created by `updateHarvestIndex` when the slug is new; each `x || d`
default of the source is the `.getD`/empty-string default here. -/
def newPotato (slug version : String) (y : PotatoYaml) : Potato :=
  { name := y.name
    info := y.info
    slug := slug
    tags := some (y.tags.getD [])
    author_name := y.author_name
    author_email := y.author_email
    author_site := y.author_site
    license := y.license
    current_version := version
    versions := some [version] }

/-- One `if (!potato.f && potatoYaml.f) potato.f = potatoYaml.f` line of the
source, for string-valued fields (JS falsiness on strings is emptiness). -/
def fillIfEmpty (cur new : String) : String :=
  if cur = "" ∧ new ≠ "" then new else cur

/-- Source lines `if (!potato.versions.includes(version)) potato.versions.push(version)`:
append the version token only when it is not yet recorded. -/
def pushVersion (vs : List String) (version : String) : List String :=
  if vs.contains version then vs else vs ++ [version]

/-- The in-place mutation `updateHarvestIndex` applies to an existing entry:
normalize a missing `versions` to `[]`, push the version if absent, set
`current_version`, then fill the descriptive fields that are still falsy.
For `tags` the source tests `!potato.tags && potatoYaml.tags`: an array is
truthy even when empty, so only an absent `tags` field is ever filled. -/
def updatePotato (version : String) (y : PotatoYaml) (p : Potato) : Potato :=
  { p with
    versions := some (pushVersion (p.versions.getD []) version)
    current_version := version
    name := fillIfEmpty p.name y.name
    info := fillIfEmpty p.info y.info
    tags := if p.tags.isNone ∧ y.tags.isSome then y.tags else p.tags
    author_name := fillIfEmpty p.author_name y.author_name
    author_email := fillIfEmpty p.author_email y.author_email
    author_site := fillIfEmpty p.author_site y.author_site
    license := fillIfEmpty p.license y.license }

/-- Apply `updatePotato` to the first entry whose slug matches (the source
mutates the object returned by `find`, i.e. the first match). -/
def updateFirstPotato (slug version : String) (y : PotatoYaml) : List Potato → List Potato
  | [] => []
  | p :: rest =>
    if p.slug == slug then updatePotato version y p :: rest
    else p :: updateFirstPotato slug version y rest

/-- Source `updateHarvestIndex(slug, version, potatoYaml)`. -/
def updateHarvestIndex (slug version : String) (y : PotatoYaml) (h : HarvestIndex) : HarvestIndex :=
  match findPotatoEntry slug h with
  | none => { h with potatoes := h.potatoes ++ [newPotato slug version y] }
  | some _ => { h with potatoes := updateFirstPotato slug version y h.potatoes }

/-- The global `tagIndex : Map<tag, Set<slug>>` in insertion order. -/
abbrev TagMap := List (String × List String)

/-- One `tagIndex.get(tag)!.add(slug)` step, creating the key when absent. -/
def addSlugToTag (tag slug : String) : TagMap → TagMap
  | [] => [(tag, [slug])]
  | (t, ss) :: rest =>
    if t == tag then (t, if ss.contains slug then ss else ss ++ [slug]) :: rest
    else (t, ss) :: addSlugToTag tag slug rest

/-- The `for (const tag of tags) ... add(slug)` loop of the source. -/
def addTagsFor (tm : TagMap) (slug : String) (tags : List String) : TagMap :=
  tags.foldl (fun acc tag => addSlugToTag tag slug acc) tm

/-- Initialization loop: seed the tag map from the loaded registry's entries
(`potato.tags || []`). -/
def initTagMap (potatoes : List Potato) : TagMap :=
  potatoes.foldl (fun acc p => addTagsFor acc p.slug (p.tags.getD [])) []

/-- External effects and parsed manifest for one per-manifest iteration of the
main loop: the build's success and the set of paths `existsSync` reports. -/
structure Event where
  yaml : PotatoYaml
  packageDir : String
  buildOk : Bool
  fsFiles : List String
  deriving Repr, DecidableEq

/-- In-memory state the run threads: the registry document plus the global
tag map. -/
structure RunState where
  idx : HarvestIndex
  tagMap : TagMap
  deriving Repr, DecidableEq

/-- Source `possibleZipPaths` (in source order): the declared output name and
the two fixed fallback names under the package directory, then the same three
relative to the process working directory. -/
def possibleZipPaths (packageDir outputZipFile : String) : List String :=
  [packageDir ++ "/" ++ outputZipFile,
   packageDir ++ "/" ++ "package.spk.zip",
   packageDir ++ "/" ++ "potato.spk.zip",
   outputZipFile,
   "package.spk.zip",
   "potato.spk.zip"]

/-- The `for (const zipName of possibleZipPaths) if (existsSync(zipName))`
loop: first candidate that exists. -/
def resolveZip (candidates : List String) (onDisk : String → Bool) : Option String :=
  candidates.find? onDisk

/-- Source `potatoYaml.developer?.output_zip_file || "package.spk.zip"`. -/
def declaredOutputZip (y : PotatoYaml) : String :=
  if y.output_zip_file = "" then "package.spk.zip" else y.output_zip_file

/-- One iteration of the per-manifest loop, also reporting whether the build
collaborator was invoked. Guards in source order: missing slug/version skip,
duplicate-version skip, build failure skip, no-zip-found skip; otherwise the
registry is upserted and the manifest's tags are merged into the tag map. -/
def processManifestT (s : RunState) (ev : Event) : RunState × Bool :=
  if ev.yaml.slug = "" ∨ ev.yaml.version = "" then (s, false)
  else if versionExists (findPotatoEntry ev.yaml.slug s.idx) ev.yaml.version then (s, false)
  else if ev.buildOk = false then (s, true)
  else
    match resolveZip (possibleZipPaths ev.packageDir (declaredOutputZip ev.yaml))
        (fun c => ev.fsFiles.contains c) with
    | none => (s, true)
    | some _ =>
      ({ idx := updateHarvestIndex ev.yaml.slug ev.yaml.version ev.yaml s.idx
         tagMap := addTagsFor s.tagMap ev.yaml.slug (ev.yaml.tags.getD []) }, true)

/-- State part of `processManifestT`. -/
def processManifest (s : RunState) (ev : Event) : RunState :=
  (processManifestT s ev).1

/-- The whole main loop over every discovered manifest of every repo. -/
def runPipeline (events : List Event) (s : RunState) : RunState :=
  events.foldl processManifest s

/-- State at the start of a run: loaded registry plus seeded tag map. -/
def initState (h : HarvestIndex) : RunState :=
  { idx := h, tagMap := initTagMap h.potatoes }

/-- Lexicographic char-list comparison used to model JS `Array.sort()` on the
tag strings. -/
def strLeAux : List Char → List Char → Bool
  | [], _ => true
  | _ :: _, [] => false
  | a :: as, b :: bs => if a = b then strLeAux as bs else decide (a < b)

/-- String comparison for the tag sort. -/
def strLe (a b : String) : Bool :=
  strLeAux a.data b.data

/-- Models `Array.from(tagIndex.keys()).sort()`. -/
def sortTags (l : List String) : List String :=
  l.insertionSort (fun a b => strLe a b = true)

/-- End-of-run step `harvestIndex.indexed_tags = allTags` where `allTags` is
the sorted key set of the tag map. -/
def finalizeRun (s : RunState) : RunState :=
  { s with idx := { s.idx with indexed_tags := sortTags (s.tagMap.map Prod.fst) } }

/-- Full run: initialization, main loop, then the `indexed_tags` update. -/
def fullRun (h : HarvestIndex) (events : List Event) : RunState :=
  finalizeRun (runPipeline events (initState h))

/-- Emitted per-tag index document. The source's projection copies every field
of the entry, so the member objects are the entries themselves. -/
structure TagIndexDoc where
  tag : String
  count : Nat
  potatoes : List Potato
  deriving Repr, DecidableEq

/-- The `slugToPotato` map of `generateTagIndexes`: built front-to-back, so a
later entry with the same slug wins (lookup on the reversed list). -/
def slugToPotato (h : HarvestIndex) (slug : String) : Option Potato :=
  h.potatoes.reverse.find? (fun p => p.slug == slug)

/-- One iteration of the tag loop in `generateTagIndexes`. -/
def tagDocFor (h : HarvestIndex) (tag : String) (slugs : List String) : TagIndexDoc :=
  let tagged := slugs.filterMap (slugToPotato h)
  { tag := tag, count := tagged.length, potatoes := tagged }

/-- All tag index documents emitted at the end of a run. -/
def generateTagIndexes (s : RunState) : List TagIndexDoc :=
  s.tagMap.map (fun e => tagDocFor s.idx e.1 e.2)

/-- JS `template.replace(pat, rep)` with a string pattern: replace the FIRST
occurrence only, on the character list. -/
def replaceFirstChars (pat rep : List Char) : List Char → List Char
  | [] => []
  | c :: cs =>
    if pat.isPrefixOf (c :: cs) then rep ++ (c :: cs).drop pat.length
    else c :: replaceFirstChars pat rep cs

/-- Source `tagTemplate.replace("{tag}", tag)`. -/
def replaceTag (template tag : String) : String :=
  String.mk (replaceFirstChars "{tag}".data tag.data template.data)

/-- Split a character list at `/` separators (semantics of
`String.prototype.split` / path segmentation). -/
def splitSlash : List Char → List String
  | [] => [""]
  | c :: cs =>
    let r := splitSlash cs
    if c = '/' then "" :: r
    else
      match r with
      | [] => [String.mk [c]]
      | s :: rest => String.mk (c :: s.data) :: rest

/-- Node `path.join(storeDir, rel)` on an already-normalized absolute
`storeDir`, given as its segment list: append `rel`'s segments, dropping empty
and `.` segments and resolving each `..` against the accumulated path. -/
def joinNorm (storeDir : List String) (rel : String) : List String :=
  (splitSlash rel.data).foldl
    (fun acc seg =>
      if seg = "" ∨ seg = "." then acc
      else if seg = ".." then acc.dropLast
      else acc ++ [seg]) storeDir

/-- Source `tagFilePath.startsWith("/")`. -/
def startsWithSlash (s : String) : Bool :=
  match s.data with
  | [] => false
  | c :: _ => c == '/'

/-- Source `tagFilePath.slice(1)`. -/
def stringDropOne (s : String) : String :=
  String.mk s.data.tail

/-- Resolved output path of one tag's index file in `generateTagIndexes`:
substitute the tag into the template, strip a leading slash, and join to the
store directory. -/
def resolvedTagPath (storeDir : List String) (template tag : String) : List String :=
  let tagFilePath := replaceTag template tag
  if startsWithSlash tagFilePath then joinNorm storeDir (stringDropOne tagFilePath)
  else joinNorm storeDir tagFilePath

/-- A resolved path lies inside the output tree rooted at `storeDir` when the
root's segments are a prefix of the path's segments. -/
abbrev insideTree (storeDir path : List String) : Prop :=
  storeDir <+: path

/-- Modelled from the spec: the candidate order the spec's artifact-resolution
sentence describes — declared output name relative to the package directory,
then declared output name relative to the process working directory, then the
two fixed fallback names in each of those locations. Used only to compare the
spec's claimed order with the source's `possibleZipPaths`. -/
def specOrderZipPaths (packageDir outputZipFile : String) : List String :=
  [packageDir ++ "/" ++ outputZipFile,
   outputZipFile,
   packageDir ++ "/" ++ "package.spk.zip",
   packageDir ++ "/" ++ "potato.spk.zip",
   "package.spk.zip",
   "potato.spk.zip"]

/-- Registry-entry well-formedness stated by the spec: the recorded version
list has no duplicates and contains the current version. -/
abbrev EntryOk (p : Potato) : Prop :=
  (p.versions.getD []).Nodup ∧ p.current_version ∈ p.versions.getD []

/-- A sequence of `updateHarvestIndex` (upsert) calls, in order. -/
def applyUpserts (us : List (String × String × PotatoYaml)) (h : HarvestIndex) : HarvestIndex :=
  us.foldl (fun acc u => updateHarvestIndex u.1 u.2.1 u.2.2 acc) h

/-- Concrete registry entry used in worked runs: slug `alpha`, one tag, one
version. -/
def exEntry : Potato :=
  { slug := "alpha", tags := some ["xtag"], current_version := "1", versions := some ["1"] }

/-- Concrete loaded registry holding only `exEntry`. -/
def exIndex : HarvestIndex :=
  { defaultHarvestIndex with potatoes := [exEntry] }

/-- Concrete manifest for slug `alpha`: a new version carrying a tag the
stored entry does not have. -/
def exYaml : PotatoYaml :=
  { slug := "alpha", version := "2", tags := some ["ytag"] }

/-- Concrete successful pipeline iteration for `exYaml`: the build succeeds
and the default zip candidate exists under the package directory. -/
def exEvent : Event :=
  { yaml := exYaml, packageDir := "pkg", buildOk := true, fsFiles := ["pkg/package.spk.zip"] }

/-- Final state of the one-manifest run over `exIndex`. -/
def exFinal : RunState :=
  fullRun exIndex [exEvent]

/-- The `alpha` entry as it stands after the run: version `2` recorded, tags
untouched by the fill-if-empty merge. -/
def exUpdatedEntry : Potato :=
  { slug := "alpha", tags := some ["xtag"], current_version := "2", versions := some ["1", "2"] }

/-- Concrete entry whose `tags` field is present but empty. -/
def c2Entry : Potato :=
  { slug := "beta", tags := some [], current_version := "1", versions := some ["1"] }

/-- Concrete registry holding only `c2Entry`. -/
def c2Index : HarvestIndex :=
  { defaultHarvestIndex with potatoes := [c2Entry] }

/-- Concrete manifest for slug `beta` supplying a non-empty tag list. -/
def c2Yaml : PotatoYaml :=
  { slug := "beta", version := "2", tags := some ["t1"] }

/-- Concrete pipeline iteration whose manifest has a version but no slug. -/
def noSlugEvent : Event :=
  { yaml := { version := "9" }, packageDir := "pkg", buildOk := true, fsFiles := [] }

lemma updatePotato_slug (version : String) (y : PotatoYaml) (p : Potato) :
    (updatePotato version y p).slug = p.slug := rfl

lemma updatePotato_current (version : String) (y : PotatoYaml) (p : Potato) :
    (updatePotato version y p).current_version = version := rfl

lemma updatePotato_versions (version : String) (y : PotatoYaml) (p : Potato) :
    (updatePotato version y p).versions = some (pushVersion (p.versions.getD []) version) := rfl

lemma pushVersion_of_mem {vs : List String} {v : String} (hv : v ∈ vs) :
    pushVersion vs v = vs := by
  simp [pushVersion, hv]

lemma mem_pushVersion (vs : List String) (v : String) : v ∈ pushVersion vs v := by
  unfold pushVersion
  by_cases hv : v ∈ vs
  · simp [List.elem_iff.mpr hv, hv]
  · simp [hv]

lemma prefix_pushVersion (vs : List String) (v : String) : vs <+: pushVersion vs v := by
  unfold pushVersion
  split
  · exact List.prefix_rfl
  · exact List.prefix_append vs [v]

lemma nodup_pushVersion {vs : List String} (v : String) (hnd : vs.Nodup) :
    (pushVersion vs v).Nodup := by
  unfold pushVersion
  split
  · exact hnd
  · next hc =>
    have hv : v ∉ vs := fun hm => hc (List.elem_iff.mpr hm)
    refine List.nodup_append.mpr ⟨hnd, List.nodup_singleton v, ?_⟩
    intro a ha hb
    rw [List.mem_singleton] at hb
    exact hv (hb ▸ ha)

lemma entryOk_newPotato (slug version : String) (y : PotatoYaml) :
    EntryOk (newPotato slug version y) := by
  constructor
  · exact List.nodup_singleton version
  · exact List.mem_singleton.mpr rfl

lemma entryOk_updatePotato (version : String) (y : PotatoYaml) {p : Potato}
    (hnd : (p.versions.getD []).Nodup) : EntryOk (updatePotato version y p) := by
  constructor
  · simpa [updatePotato] using nodup_pushVersion version hnd
  · simpa [updatePotato] using mem_pushVersion (p.versions.getD []) version

lemma find?_updateFirstPotato {slug version : String} {y : PotatoYaml}
    {l : List Potato} {p : Potato}
    (hf : l.find? (fun q => q.slug == slug) = some p) :
    (updateFirstPotato slug version y l).find? (fun q => q.slug == slug)
      = some (updatePotato version y p) := by
  induction l with
  | nil => simp at hf
  | cons a rest ih =>
    by_cases ha : a.slug = slug
    · rw [List.find?_cons_of_pos _ (by simp [ha])] at hf
      cases hf
      rw [updateFirstPotato, if_pos (by simp [ha])]
      exact List.find?_cons_of_pos _ (by simp [updatePotato_slug, ha])
    · rw [List.find?_cons_of_neg _ (by simp [ha])] at hf
      rw [updateFirstPotato, if_neg (by simp [ha])]
      rw [List.find?_cons_of_neg _ (by simp [ha])]
      exact ih hf

lemma findPotatoEntry_upsert_none {slug : String} {h : HarvestIndex}
    (version : String) (y : PotatoYaml) (hf : findPotatoEntry slug h = none) :
    findPotatoEntry slug (updateHarvestIndex slug version y h)
      = some (newPotato slug version y) := by
  unfold updateHarvestIndex
  rw [hf]
  unfold findPotatoEntry at hf ⊢
  simp [List.find?_append, hf, newPotato]

lemma findPotatoEntry_upsert_some {slug : String} {h : HarvestIndex} {p : Potato}
    (version : String) (y : PotatoYaml) (hf : findPotatoEntry slug h = some p) :
    findPotatoEntry slug (updateHarvestIndex slug version y h)
      = some (updatePotato version y p) := by
  unfold updateHarvestIndex
  rw [hf]
  unfold findPotatoEntry at hf ⊢
  exact find?_updateFirstPotato hf

lemma mem_updateFirstPotato {slug version : String} {y : PotatoYaml}
    {l : List Potato} {q : Potato} (hq : q ∈ updateFirstPotato slug version y l) :
    q ∈ l ∨ ∃ p ∈ l, q = updatePotato version y p := by
  induction l with
  | nil => simp [updateFirstPotato] at hq
  | cons a rest ih =>
    rw [updateFirstPotato] at hq
    split at hq
    · rcases List.mem_cons.mp hq with hq | hq
      · exact Or.inr ⟨a, List.mem_cons_self a rest, hq⟩
      · exact Or.inl (List.mem_cons_of_mem a hq)
    · rcases List.mem_cons.mp hq with hq | hq
      · exact Or.inl (hq ▸ List.mem_cons_self a rest)
      · rcases ih hq with hq | ⟨p, hp, hqp⟩
        · exact Or.inl (List.mem_cons_of_mem a hq)
        · exact Or.inr ⟨p, List.mem_cons_of_mem a hp, hqp⟩

lemma extend_updateFirstPotato (slug version : String) (y : PotatoYaml)
    (l : List Potato) :
    ∀ p ∈ l, ∃ q ∈ updateFirstPotato slug version y l,
      q.slug = p.slug ∧ p.versions.getD [] <+: q.versions.getD [] := by
  induction l with
  | nil => intro p hp; simp at hp
  | cons a rest ih =>
    intro p hp
    rw [updateFirstPotato]
    split
    · rcases List.mem_cons.mp hp with hp | hp
      · subst hp
        refine ⟨updatePotato version y p, List.mem_cons_self _ _, rfl, ?_⟩
        rw [updatePotato_versions]
        simpa using prefix_pushVersion (p.versions.getD []) version
      · exact ⟨p, List.mem_cons_of_mem _ hp, rfl, List.prefix_rfl⟩
    · rcases List.mem_cons.mp hp with hp | hp
      · subst hp
        exact ⟨p, List.mem_cons_self _ _, rfl, List.prefix_rfl⟩
      · rcases ih p hp with ⟨q, hq, hslug, hpre⟩
        exact ⟨q, List.mem_cons_of_mem _ hq, hslug, hpre⟩

lemma mem_upsert_potatoes {slug version : String} {y : PotatoYaml}
    {h : HarvestIndex} {q : Potato}
    (hq : q ∈ (updateHarvestIndex slug version y h).potatoes) :
    q ∈ h.potatoes ∨ (∃ p ∈ h.potatoes, q = updatePotato version y p)
      ∨ q = newPotato slug version y := by
  unfold updateHarvestIndex at hq
  split at hq
  · rcases List.mem_append.mp hq with hq | hq
    · exact Or.inl hq
    · exact Or.inr (Or.inr (List.mem_singleton.mp hq))
  · rcases mem_updateFirstPotato hq with hq | hq
    · exact Or.inl hq
    · exact Or.inr (Or.inl hq)

lemma extend_upsert (slug version : String) (y : PotatoYaml) (h : HarvestIndex) :
    ∀ p ∈ h.potatoes, ∃ q ∈ (updateHarvestIndex slug version y h).potatoes,
      q.slug = p.slug ∧ p.versions.getD [] <+: q.versions.getD [] := by
  intro p hp
  unfold updateHarvestIndex
  split
  · exact ⟨p, List.mem_append.mpr (Or.inl hp), rfl, List.prefix_rfl⟩
  · exact extend_updateFirstPotato slug version y h.potatoes p hp

lemma entryOk_upsert {slug version : String} {y : PotatoYaml} {h : HarvestIndex}
    (hOk : ∀ p ∈ h.potatoes, EntryOk p) :
    ∀ q ∈ (updateHarvestIndex slug version y h).potatoes, EntryOk q := by
  intro q hq
  rcases mem_upsert_potatoes hq with hq | ⟨p, hp, rfl⟩ | rfl
  · exact hOk q hq
  · exact entryOk_updatePotato version y (hOk p hp).1
  · exact entryOk_newPotato slug version y

lemma mem_keys_addSlugToTag (tag slug : String) (tm : TagMap) {t : String}
    (ht : t ∈ tm.map Prod.fst) : t ∈ (addSlugToTag tag slug tm).map Prod.fst := by
  induction tm with
  | nil => simp at ht
  | cons e rest ih =>
    obtain ⟨k, ss⟩ := e
    rw [List.map_cons] at ht
    rw [addSlugToTag]
    split
    · rw [List.map_cons]
      exact ht
    · rw [List.map_cons]
      rcases List.mem_cons.mp ht with ht | ht
      · exact List.mem_cons.mpr (Or.inl ht)
      · exact List.mem_cons.mpr (Or.inr (ih ht))

lemma self_mem_keys_addSlugToTag (tag slug : String) (tm : TagMap) :
    tag ∈ (addSlugToTag tag slug tm).map Prod.fst := by
  induction tm with
  | nil => simp [addSlugToTag]
  | cons e rest ih =>
    obtain ⟨k, ss⟩ := e
    rw [addSlugToTag]
    split
    · next hk =>
      rw [List.map_cons]
      exact List.mem_cons.mpr (Or.inl (eq_of_beq hk).symm)
    · rw [List.map_cons]
      exact List.mem_cons.mpr (Or.inr ih)

lemma mem_keys_addTagsFor (slug : String) (tags : List String) :
    ∀ (tm : TagMap) (t : String), t ∈ tm.map Prod.fst →
      t ∈ (addTagsFor tm slug tags).map Prod.fst := by
  induction tags with
  | nil => intro tm t ht; simpa [addTagsFor] using ht
  | cons tag rest ih =>
    intro tm t ht
    exact ih (addSlugToTag tag slug tm) t (mem_keys_addSlugToTag tag slug tm ht)

lemma self_mem_keys_addTagsFor (slug : String) (tags : List String) :
    ∀ (tm : TagMap) (t : String), t ∈ tags →
      t ∈ (addTagsFor tm slug tags).map Prod.fst := by
  induction tags with
  | nil => intro tm t ht; simp at ht
  | cons tag rest ih =>
    intro tm t ht
    rcases List.mem_cons.mp ht with ht | ht
    · subst ht
      exact mem_keys_addTagsFor slug rest (addSlugToTag t slug tm) t
        (self_mem_keys_addSlugToTag t slug tm)
    · exact ih (addSlugToTag tag slug tm) t ht

lemma mem_keys_initTagMap_aux (ps : List Potato) :
    ∀ (tm : TagMap),
      (∀ t, t ∈ tm.map Prod.fst →
        t ∈ (ps.foldl (fun acc p => addTagsFor acc p.slug (p.tags.getD [])) tm).map Prod.fst) ∧
      (∀ p ∈ ps, ∀ t, t ∈ p.tags.getD [] →
        t ∈ (ps.foldl (fun acc p => addTagsFor acc p.slug (p.tags.getD [])) tm).map Prod.fst) := by
  induction ps with
  | nil =>
    intro tm
    exact ⟨fun t ht => by simpa using ht, fun p hp => by simp at hp⟩
  | cons a rest ih =>
    intro tm
    constructor
    · intro t ht
      exact (ih (addTagsFor tm a.slug (a.tags.getD []))).1 t
        (mem_keys_addTagsFor a.slug (a.tags.getD []) tm t ht)
    · intro p hp t ht
      rcases List.mem_cons.mp hp with hp | hp
      · subst hp
        exact (ih (addTagsFor tm p.slug (p.tags.getD []))).1 t
          (self_mem_keys_addTagsFor p.slug (p.tags.getD []) tm t ht)
      · exact (ih (addTagsFor tm a.slug (a.tags.getD []))).2 p hp t ht

/-- Run-state invariant behind the tag universe: every tag carried by a
registry entry is a key of the in-memory tag map. -/
abbrev TagsCovered (s : RunState) : Prop :=
  ∀ p ∈ s.idx.potatoes, ∀ t ∈ p.tags.getD [], t ∈ s.tagMap.map Prod.fst

lemma tagsCovered_initState (h : HarvestIndex) : TagsCovered (initState h) := by
  intro p hp t ht
  exact (mem_keys_initTagMap_aux h.potatoes []).2 p hp t ht

lemma updatePotato_tags_sub (version : String) (y : PotatoYaml) (p : Potato)
    {t : String} (ht : t ∈ (updatePotato version y p).tags.getD []) :
    t ∈ p.tags.getD [] ∨ t ∈ y.tags.getD [] := by
  rcases hp : p.tags with _ | l <;> rcases hy : y.tags with _ | m <;>
    simp [updatePotato, hp, hy] at ht <;> simp [hp, hy, ht]

lemma tagsCovered_processManifest (s : RunState) (ev : Event)
    (hInv : TagsCovered s) : TagsCovered (processManifest s ev) := by
  unfold processManifest processManifestT
  split
  · exact hInv
  split
  · exact hInv
  split
  · exact hInv
  split
  · exact hInv
  · intro p hp t ht
    rcases mem_upsert_potatoes hp with hp' | ⟨q, hq, rfl⟩ | rfl
    · exact mem_keys_addTagsFor _ _ _ t (hInv p hp' t ht)
    · rcases updatePotato_tags_sub _ _ _ ht with ht' | ht'
      · exact mem_keys_addTagsFor _ _ _ t (hInv q hq t ht')
      · exact self_mem_keys_addTagsFor _ _ _ t ht'
    · have ht' : t ∈ ev.yaml.tags.getD [] := by simpa [newPotato] using ht
      exact self_mem_keys_addTagsFor _ _ _ t ht'

lemma tagsCovered_runPipeline (events : List Event) :
    ∀ s : RunState, TagsCovered s → TagsCovered (runPipeline events s) := by
  induction events with
  | nil => intro s h; exact h
  | cons ev rest ih =>
    intro s h
    exact ih (processManifest s ev) (tagsCovered_processManifest s ev h)

lemma mem_sortTags {l : List String} {t : String} : t ∈ sortTags l ↔ t ∈ l :=
  (List.perm_insertionSort _ l).mem_iff

lemma applyUpserts_ok (us : List (String × String × PotatoYaml)) :
    ∀ h : HarvestIndex, (∀ p ∈ h.potatoes, EntryOk p) →
      (∀ q ∈ (applyUpserts us h).potatoes, EntryOk q) ∧
      (∀ p ∈ h.potatoes, ∃ q ∈ (applyUpserts us h).potatoes,
        q.slug = p.slug ∧ p.versions.getD [] <+: q.versions.getD []) := by
  induction us with
  | nil =>
    intro h hOk
    exact ⟨hOk, fun p hp => ⟨p, hp, rfl, List.prefix_rfl⟩⟩
  | cons u rest ih =>
    intro h hOk
    have hOk' := @entryOk_upsert u.1 u.2.1 u.2.2 h hOk
    obtain ⟨h1, h2⟩ := ih (updateHarvestIndex u.1 u.2.1 u.2.2 h) hOk'
    refine ⟨h1, ?_⟩
    intro p hp
    obtain ⟨q, hq, hslug, hpre⟩ := extend_upsert u.1 u.2.1 u.2.2 h p hp
    obtain ⟨r, hr, hslug', hpre'⟩ := h2 q hq
    exact ⟨r, hr, hslug'.trans hslug, hpre.trans hpre'⟩

/-- C1 (amended): after a full run, every tag carried by some Package Entry in
`potatoes` appears in `indexed_tags`. (The converse direction of the original
claim is false: `indexed_tags` is the sorted key set of the run's tag map,
which also records tags of processed manifests that the fill-if-empty merge
never copied into their entry — see the counterexample.) -/
theorem C1_tag_universe (h : HarvestIndex) (events : List Event) (p : Potato)
    (t : String) (hp : p ∈ (fullRun h events).idx.potatoes)
    (ht : t ∈ p.tags.getD []) : t ∈ (fullRun h events).idx.indexed_tags := by
  have hcov := tagsCovered_runPipeline events (initState h) (tagsCovered_initState h)
  have hp' : p ∈ (runPipeline events (initState h)).idx.potatoes := hp
  have hkey := hcov p hp' t ht
  show t ∈ sortTags ((runPipeline events (initState h)).tagMap.map Prod.fst)
  exact mem_sortTags.mpr hkey

/-- Witness for C1: in the worked one-manifest run, tag `xtag` of the `alpha`
entry is indexed. -/
theorem C1_tag_universe_witness :
    "xtag" ∈ (fullRun exIndex [exEvent]).idx.indexed_tags :=
  C1_tag_universe exIndex [exEvent] exUpdatedEntry "xtag" (by decide) (by decide)

/-- Counterexample to C1 as stated: after the run of `exEvent` over `exIndex`,
`ytag` is in `indexed_tags` although no Package Entry carries it (the manifest
carried it, but fill-if-empty left the existing entry's tags untouched). -/
theorem C1_counterexample :
    "ytag" ∈ (fullRun exIndex [exEvent]).idx.indexed_tags ∧
    ∀ p ∈ (fullRun exIndex [exEvent]).idx.potatoes, "ytag" ∉ p.tags.getD [] := by
  decide

/-- C4: starting from a registry whose entries are well-formed, any sequence
of upserts keeps every entry's `versions` duplicate-free with
`current_version` a member, and never loses a recorded version token (the old
version list stays a prefix of the new one for the entry of the same slug). -/
theorem C4_versions_invariant (us : List (String × String × PotatoYaml))
    (h : HarvestIndex) (hOk : ∀ p ∈ h.potatoes, EntryOk p) :
    (∀ q ∈ (applyUpserts us h).potatoes, EntryOk q) ∧
    (∀ p ∈ h.potatoes, ∃ q ∈ (applyUpserts us h).potatoes,
      q.slug = p.slug ∧ p.versions.getD [] <+: q.versions.getD []) :=
  applyUpserts_ok us h hOk

/-- Witness for C4 at a concrete registry and a two-upsert sequence. -/
theorem C4_versions_invariant_witness :
    (∀ q ∈ (applyUpserts [("beta", "2", c2Yaml), ("alpha", "1", exYaml)] c2Index).potatoes,
      EntryOk q) ∧
    (∀ p ∈ c2Index.potatoes,
      ∃ q ∈ (applyUpserts [("beta", "2", c2Yaml), ("alpha", "1", exYaml)] c2Index).potatoes,
        q.slug = p.slug ∧ p.versions.getD [] <+: q.versions.getD []) :=
  C4_versions_invariant [("beta", "2", c2Yaml), ("alpha", "1", exYaml)] c2Index (by decide)

/-- C3: upsert is idempotent on `versions` and `current_version` — a second
`updateHarvestIndex` with the same `(slug, version, manifest)` leaves both
unchanged — and the pipeline's dedup check makes a manifest whose version is
already recorded a strict no-op that never reaches build delegation (the
returned flag is the build-invocation indicator). -/
theorem C3_idempotence :
    (∀ (h : HarvestIndex) (slug version : String) (y : PotatoYaml),
      (findPotatoEntry slug
          (updateHarvestIndex slug version y (updateHarvestIndex slug version y h))).map
          (fun p => (p.versions, p.current_version))
        = (findPotatoEntry slug (updateHarvestIndex slug version y h)).map
          (fun p => (p.versions, p.current_version))) ∧
    (∀ (s : RunState) (ev : Event),
      versionExists (findPotatoEntry ev.yaml.slug s.idx) ev.yaml.version = true →
      processManifestT s ev = (s, false)) := by
  constructor
  · intro h slug version y
    cases hf : findPotatoEntry slug h with
    | none =>
      have h1 := findPotatoEntry_upsert_none version y hf
      have h2 := findPotatoEntry_upsert_some version y h1
      rw [h1, h2]
      have hver : (updatePotato version y (newPotato slug version y)).versions
          = some [version] := by
        rw [updatePotato_versions]
        show some (pushVersion ((some [version]).getD []) version) = some [version]
        rw [Option.getD_some, pushVersion_of_mem (List.mem_singleton.mpr rfl)]
      show some ((updatePotato version y (newPotato slug version y)).versions,
          (updatePotato version y (newPotato slug version y)).current_version)
        = some ((newPotato slug version y).versions,
          (newPotato slug version y).current_version)
      rw [hver]
      simp only [updatePotato_current]
      rfl
    | some p =>
      have h1 := findPotatoEntry_upsert_some version y hf
      have h2 := findPotatoEntry_upsert_some version y h1
      rw [h1, h2]
      have hver : (updatePotato version y (updatePotato version y p)).versions
          = (updatePotato version y p).versions := by
        rw [updatePotato_versions version y (updatePotato version y p)]
        rw [updatePotato_versions version y p]
        show some (pushVersion
            ((some (pushVersion (p.versions.getD []) version)).getD []) version) = _
        rw [Option.getD_some, pushVersion_of_mem (mem_pushVersion _ _)]
      show some ((updatePotato version y (updatePotato version y p)).versions,
          (updatePotato version y (updatePotato version y p)).current_version)
        = some ((updatePotato version y p).versions,
          (updatePotato version y p).current_version)
      rw [hver]
      simp only [updatePotato_current]
  · intro s ev hex
    unfold processManifestT
    split
    · rfl
    · simp [hex]

/-- Witness for C3: the already-recorded version `1` of slug `alpha` is
skipped without any state change or build invocation. -/
theorem C3_idempotence_witness :
    versionExists (findPotatoEntry "alpha" exIndex) "1" = true ∧
    processManifestT { idx := exIndex, tagMap := [] }
        { yaml := { slug := "alpha", version := "1" }, packageDir := "pkg",
          buildOk := true, fsFiles := [] }
      = ({ idx := exIndex, tagMap := [] }, false) :=
  ⟨by decide, C3_idempotence.2 _ _ (by decide)⟩

/-- C8: a manifest missing its slug or version is rejected before any
mutation: the state is unchanged, the build is not invoked, and the run
continues with the remaining manifests. -/
theorem C8_invalid_manifest (s : RunState) (ev : Event) (events : List Event)
    (hbad : ev.yaml.slug = "" ∨ ev.yaml.version = "") :
    processManifestT s ev = (s, false) ∧
    runPipeline (ev :: events) s = runPipeline events s := by
  have h1 : processManifestT s ev = (s, false) := by
    unfold processManifestT
    rw [if_pos hbad]
  refine ⟨h1, ?_⟩
  show runPipeline events (processManifest s ev) = runPipeline events s
  rw [processManifest, h1]

/-- Witness for C8: a manifest with a version but no slug leaves the state of
the worked run untouched. -/
theorem C8_invalid_manifest_witness :
    processManifestT (initState exIndex) noSlugEvent = (initState exIndex, false) ∧
    runPipeline [noSlugEvent] (initState exIndex)
      = runPipeline [] (initState exIndex) :=
  C8_invalid_manifest (initState exIndex) noSlugEvent [] (by simp [noSlugEvent])

lemma length_updateFirstPotato (slug version : String) (y : PotatoYaml)
    (l : List Potato) : (updateFirstPotato slug version y l).length = l.length := by
  induction l with
  | nil => rfl
  | cons a rest ih =>
    rw [updateFirstPotato]
    split <;> simp [ih]

lemma get_updateFirstPotato_of_ne (slug version : String) (y : PotatoYaml) :
    ∀ (l : List Potato) (i : Nat) (hi : i < l.length),
      (l.get ⟨i, hi⟩).slug ≠ slug →
      ∃ hi' : i < (updateFirstPotato slug version y l).length,
        (updateFirstPotato slug version y l).get ⟨i, hi'⟩ = l.get ⟨i, hi⟩ := by
  intro l
  induction l with
  | nil => intro i hi; simp at hi
  | cons a rest ih =>
    intro i hi hne
    rw [updateFirstPotato]
    by_cases ha : a.slug == slug
    · cases i with
      | zero => exact absurd (eq_of_beq ha) hne
      | succ j =>
        rw [if_pos ha]
        have hj : j < rest.length := by simpa using hi
        exact ⟨by simpa using hj, by simp⟩
    · rw [if_neg ha]
      cases i with
      | zero => exact ⟨by simp [length_updateFirstPotato], rfl⟩
      | succ j =>
        have hj : j < rest.length := by simpa using hi
        have hne' : (rest.get ⟨j, hj⟩).slug ≠ slug := hne
        obtain ⟨hj', heq⟩ := ih j hj hne'
        exact ⟨by simpa using hj', by simpa using heq⟩

/-- C10: upsert is frame-respecting — the registry's top-level fields are
untouched, every existing entry with a different slug is unchanged at its
position, and the potato list either keeps its length (existing slug) or is
exactly the old list with the freshly created entry appended. -/
theorem C10_upsert_frame (h : HarvestIndex) (slug version : String)
    (y : PotatoYaml) :
    (updateHarvestIndex slug version y h).name = h.name ∧
    (updateHarvestIndex slug version y h).info = h.info ∧
    (updateHarvestIndex slug version y h).type = h.type ∧
    (updateHarvestIndex slug version y h).zip_template = h.zip_template ∧
    (updateHarvestIndex slug version y h).indexed_tag_template = h.indexed_tag_template ∧
    (updateHarvestIndex slug version y h).indexed_tags = h.indexed_tags ∧
    (∀ (i : Nat) (hi : i < h.potatoes.length),
      (h.potatoes.get ⟨i, hi⟩).slug ≠ slug →
      ∃ hi' : i < (updateHarvestIndex slug version y h).potatoes.length,
        (updateHarvestIndex slug version y h).potatoes.get ⟨i, hi'⟩
          = h.potatoes.get ⟨i, hi⟩) ∧
    ((updateHarvestIndex slug version y h).potatoes.length = h.potatoes.length ∨
      (updateHarvestIndex slug version y h).potatoes
        = h.potatoes ++ [newPotato slug version y]) := by
  unfold updateHarvestIndex
  cases hf : findPotatoEntry slug h with
  | none =>
    refine ⟨rfl, rfl, rfl, rfl, rfl, rfl, ?_, Or.inr rfl⟩
    intro i hi hne
    refine ⟨by simp; omega, ?_⟩
    show (h.potatoes ++ [newPotato slug version y]).get
        ⟨i, by simp; omega⟩ = h.potatoes.get ⟨i, hi⟩
    simp [List.getElem_append_left hi]
  | some p =>
    refine ⟨rfl, rfl, rfl, rfl, rfl, rfl, ?_, Or.inl (length_updateFirstPotato _ _ _ _)⟩
    intro i hi hne
    exact get_updateFirstPotato_of_ne slug version y h.potatoes i hi hne

/-- Witness for C10: upserting a fresh slug into the worked registry keeps the
`alpha` entry at position 0 and the top-level fields intact. -/
theorem C10_upsert_frame_witness :
    (updateHarvestIndex "delta" "1" c2Yaml exIndex).name = exIndex.name ∧
    (∃ hi' : 0 < (updateHarvestIndex "delta" "1" c2Yaml exIndex).potatoes.length,
      (updateHarvestIndex "delta" "1" c2Yaml exIndex).potatoes.get ⟨0, hi'⟩
        = exIndex.potatoes.get ⟨0, by decide⟩) :=
  ⟨(C10_upsert_frame exIndex "delta" "1" c2Yaml).1,
    (C10_upsert_frame exIndex "delta" "1" c2Yaml).2.2.2.2.2.2.1 0 (by decide) (by decide)⟩

lemma fillIfEmpty_of_nonempty {cur : String} (new : String) (h : cur ≠ "") :
    fillIfEmpty cur new = cur := by
  simp [fillIfEmpty, h]

lemma fillIfEmpty_of_empty {cur new : String} (h : cur = "") (h2 : new ≠ "") :
    fillIfEmpty cur new = new := by
  simp [fillIfEmpty, h, h2]

/-- C2 (amended): for an existing entry, upsert applies the fill-if-empty rule
to the six string-valued descriptive fields (a non-empty value is never
overwritten; an empty value is replaced by a non-empty manifest value), while
`tags` follows JS truthiness of arrays: a present tags value — even the empty
list — is never replaced, and only an absent `tags` field is filled from a
manifest that carries one. -/
theorem C2_fill_if_empty (h : HarvestIndex) (slug version : String)
    (y : PotatoYaml) (p : Potato) (hf : findPotatoEntry slug h = some p) :
    ∃ p', findPotatoEntry slug (updateHarvestIndex slug version y h) = some p' ∧
      ((p.name ≠ "" → p'.name = p.name) ∧
        (p.name = "" → y.name ≠ "" → p'.name = y.name)) ∧
      ((p.info ≠ "" → p'.info = p.info) ∧
        (p.info = "" → y.info ≠ "" → p'.info = y.info)) ∧
      ((p.author_name ≠ "" → p'.author_name = p.author_name) ∧
        (p.author_name = "" → y.author_name ≠ "" → p'.author_name = y.author_name)) ∧
      ((p.author_email ≠ "" → p'.author_email = p.author_email) ∧
        (p.author_email = "" → y.author_email ≠ "" → p'.author_email = y.author_email)) ∧
      ((p.author_site ≠ "" → p'.author_site = p.author_site) ∧
        (p.author_site = "" → y.author_site ≠ "" → p'.author_site = y.author_site)) ∧
      ((p.license ≠ "" → p'.license = p.license) ∧
        (p.license = "" → y.license ≠ "" → p'.license = y.license)) ∧
      ((∀ l, p.tags = some l → p'.tags = some l) ∧
        (p.tags = none → y.tags.isSome = true → p'.tags = y.tags)) := by
  refine ⟨updatePotato version y p, findPotatoEntry_upsert_some version y hf,
    ⟨fun hne => fillIfEmpty_of_nonempty _ hne, fun he hy => fillIfEmpty_of_empty he hy⟩,
    ⟨fun hne => fillIfEmpty_of_nonempty _ hne, fun he hy => fillIfEmpty_of_empty he hy⟩,
    ⟨fun hne => fillIfEmpty_of_nonempty _ hne, fun he hy => fillIfEmpty_of_empty he hy⟩,
    ⟨fun hne => fillIfEmpty_of_nonempty _ hne, fun he hy => fillIfEmpty_of_empty he hy⟩,
    ⟨fun hne => fillIfEmpty_of_nonempty _ hne, fun he hy => fillIfEmpty_of_empty he hy⟩,
    ⟨fun hne => fillIfEmpty_of_nonempty _ hne, fun he hy => fillIfEmpty_of_empty he hy⟩,
    ⟨?_, ?_⟩⟩
  · intro l hl
    show (if p.tags.isNone ∧ y.tags.isSome then y.tags else p.tags) = some l
    rw [if_neg (by simp [hl]), hl]
  · intro hnone hsome
    show (if p.tags.isNone ∧ y.tags.isSome then y.tags else p.tags) = y.tags
    rw [if_pos (by simp [hnone, hsome])]

/-- Witness for C2: upserting `c2Yaml` onto the registry holding `c2Entry`
keeps the entry's present-but-empty tags value. -/
theorem C2_fill_if_empty_witness :
    ∃ p', findPotatoEntry "beta" (updateHarvestIndex "beta" "2" c2Yaml c2Index)
        = some p' ∧ p'.tags = some [] := by
  obtain ⟨p', hp', hfields⟩ :=
    C2_fill_if_empty c2Index "beta" "2" c2Yaml c2Entry (by decide)
  exact ⟨p', hp', hfields.2.2.2.2.2.2.1 [] (by decide)⟩

/-- Counterexample to C2 as stated: `c2Entry`'s `tags` value is empty and the
manifest supplies a non-empty one, yet upsert does not install the manifest's
value — the empty list is kept. -/
theorem C2_counterexample :
    (findPotatoEntry "beta" (updateHarvestIndex "beta" "2" c2Yaml c2Index)).map
        Potato.tags ≠ some (some ["t1"]) ∧
    (findPotatoEntry "beta" (updateHarvestIndex "beta" "2" c2Yaml c2Index)).map
        Potato.tags = some (some []) := by
  decide

/-- C5 (amended): every emitted Tag Index Document has `count` equal to the
length of its `potatoes` array, and every member entry is a registry entry
whose slug was recorded under the document's tag in the run's tag map. (The
original claim's stronger condition — that the tag is in the member's own
`tags` field — is false; see the counterexample.) -/
theorem C5_tag_documents (s : RunState) (d : TagIndexDoc) (p : Potato)
    (hd : d ∈ generateTagIndexes s) :
    d.count = d.potatoes.length ∧
    (p ∈ d.potatoes → p ∈ s.idx.potatoes ∧
      ∃ ss, (d.tag, ss) ∈ s.tagMap ∧ p.slug ∈ ss) := by
  obtain ⟨e, he, rfl⟩ := List.mem_map.mp hd
  constructor
  · rfl
  · intro hp
    obtain ⟨a, ha, hpa⟩ := List.mem_filterMap.mp hp
    have hpa' : s.idx.potatoes.reverse.find? (fun q => q.slug == a) = some p := hpa
    have hmem : p ∈ s.idx.potatoes :=
      List.mem_reverse.mp (List.mem_of_find?_eq_some hpa')
    have hbeq := List.find?_some hpa'
    have hslug : p.slug = a := eq_of_beq (by simpa using hbeq)
    exact ⟨hmem, e.2, by simpa using he, hslug ▸ ha⟩

/-- Witness for C5: the `xtag` document of the worked run satisfies the count
and membership properties. -/
theorem C5_tag_documents_witness :
    (tagDocFor exFinal.idx "xtag" ["alpha"]).count
      = (tagDocFor exFinal.idx "xtag" ["alpha"]).potatoes.length ∧
    (exUpdatedEntry ∈ (tagDocFor exFinal.idx "xtag" ["alpha"]).potatoes →
      exUpdatedEntry ∈ exFinal.idx.potatoes ∧
      ∃ ss, ((tagDocFor exFinal.idx "xtag" ["alpha"]).tag, ss) ∈ exFinal.tagMap ∧
        exUpdatedEntry.slug ∈ ss) :=
  C5_tag_documents exFinal (tagDocFor exFinal.idx "xtag" ["alpha"])
    exUpdatedEntry (by decide)

/-- Counterexample to C5 as stated: the worked run emits a document for tag
`ytag` (which is in `indexed_tags`) listing the `alpha` entry, yet `ytag` is
not in that entry's `tags` field. -/
theorem C5_counterexample :
    ∃ d ∈ generateTagIndexes exFinal, d.tag ∈ exFinal.idx.indexed_tags ∧
      ∃ p ∈ d.potatoes, d.tag ∉ p.tags.getD [] := by
  decide

/-- C9 (amended): artifact resolution scans `possibleZipPaths` — the declared
output name, then the two fixed fallback names, first all three relative to
the package directory and then all three relative to the process working
directory — and returns the first candidate that exists; when no candidate
exists the manifest is skipped with no registry or tag-map mutation and the
run continues. (The spec's order — declared name in the package directory,
then declared name in the working directory, then the fallbacks — differs
from the source's; see the counterexample.) -/
theorem C9_artifact_resolution :
    (∀ (packageDir outputZipFile : String) (onDisk : String → Bool) (z : String),
      resolveZip (possibleZipPaths packageDir outputZipFile) onDisk = some z →
        onDisk z = true ∧
        ∃ pre post, possibleZipPaths packageDir outputZipFile = pre ++ z :: post ∧
          ∀ w ∈ pre, onDisk w = false) ∧
    (∀ (s : RunState) (ev : Event) (events : List Event),
      resolveZip (possibleZipPaths ev.packageDir (declaredOutputZip ev.yaml))
          (fun c => ev.fsFiles.contains c) = none →
      (processManifestT s ev).1 = s ∧
      runPipeline (ev :: events) s = runPipeline events s) := by
  constructor
  · intro packageDir outputZipFile onDisk z hz
    obtain ⟨hpz, pre, post, hsplit, hpre⟩ := List.find?_eq_some.mp hz
    refine ⟨hpz, pre, post, hsplit, ?_⟩
    intro w hw
    simpa using hpre w hw
  · intro s ev events hnone
    have h1 : (processManifestT s ev).1 = s := by
      unfold processManifestT
      split
      · rfl
      split
      · rfl
      split
      · rfl
      rw [hnone]
    refine ⟨h1, ?_⟩
    show runPipeline events (processManifest s ev) = runPipeline events s
    rw [processManifest, h1]

/-- Witness for C9 at a concrete existing-file set: the first candidate under
the package directory is selected, and with no candidate on disk the state is
unchanged. -/
theorem C9_artifact_resolution_witness :
    (["pkg/package.spk.zip"].contains "pkg/package.spk.zip" = true ∧
      ∃ pre post, possibleZipPaths "pkg" "package.spk.zip" = pre ++ "pkg/package.spk.zip" :: post ∧
        ∀ w ∈ pre, (["pkg/package.spk.zip"].contains w) = false) ∧
    ((processManifestT (initState exIndex)
        { yaml := exYaml, packageDir := "pkg", buildOk := true, fsFiles := [] }).1
      = initState exIndex) :=
  ⟨C9_artifact_resolution.1 "pkg" "package.spk.zip"
      (fun c => ["pkg/package.spk.zip"].contains c) "pkg/package.spk.zip" (by decide),
    (C9_artifact_resolution.2 (initState exIndex)
      { yaml := exYaml, packageDir := "pkg", buildOk := true, fsFiles := [] }
      [] (by decide)).1⟩

/-- Counterexample to C9 as stated: with a declared name `custom.zip`, a
fallback artifact in the package directory and the declared artifact in the
working directory, the source picks the package-directory fallback while the
spec's claimed order would pick the declared name in the working directory. -/
theorem C9_counterexample :
    resolveZip (possibleZipPaths "pkg" "custom.zip")
        (fun c => ["pkg/package.spk.zip", "custom.zip"].contains c)
      = some "pkg/package.spk.zip" ∧
    resolveZip (specOrderZipPaths "pkg" "custom.zip")
        (fun c => ["pkg/package.spk.zip", "custom.zip"].contains c)
      = some "custom.zip" ∧
    ("pkg/package.spk.zip" : String) ≠ "custom.zip" := by
  decide

/-- C6 evaluation at the failing input: with the default template, the tag
`../../evil` resolves to a path OUTSIDE the store directory (the designated
output tree), while an ordinary tag stays inside — the source performs no
sanitization, so the path-sandboxing contract of the spec does not hold. -/
theorem C6_traversal_escape :
    resolvedTagPath ["srv", "store"] "/tags/{tag}.json" "../../evil"
      = ["srv", "evil.json"] ∧
    ¬ insideTree ["srv", "store"]
        (resolvedTagPath ["srv", "store"] "/tags/{tag}.json" "../../evil") ∧
    insideTree ["srv", "store"]
        (resolvedTagPath ["srv", "store"] "/tags/{tag}.json" "official") := by
  decide
